import Mathlib

/-!
Shallow embedding of the field-extraction and image-normalization logic of
`src/components/OCRDetector.tsx` (functions `parseFields` and
`preprocessIfNeeded`), together with theorems settling the specification
claims about them.

The regular expressions of `parseFields` are embedded as character-level
matchers over `List Char`.  Wherever a regex quantifier is rendered
deterministically (e.g. `[\.\/\-]?` before `\d`), the character classes
involved are disjoint, so the deterministic rendering coincides with the
backtracking semantics; where genuine backtracking can occur (the monetary
amount pattern), the matcher implements it explicitly.
-/

namespace ScanParseCraft

/-! ### Character classes

`\d` in a JS regex is exactly the ASCII digits, `\w` is `[A-Za-z0-9_]`,
`\s` is the whitespace class (we model its ASCII part; the text in play
only ever contains ASCII whitespace). -/

/-- JS `\s` (ASCII part): space, tab, newline, carriage return, vertical
tab, form feed. -/
def isWS (c : Char) : Bool :=
  c == ' ' || c == '\t' || c == '\n' || c == '\r' || c == '\x0b' || c == '\x0c'

/-- The class `[\t\r]` of the first pre-normalization replace. -/
def isTabCR (c : Char) : Bool := c == '\t' || c == '\r'

/-- JS word character `\w` = `[A-Za-z0-9_]`, used by `\b`. -/
def isWordChar (c : Char) : Bool := c.isAlphanum || c == '_'

/-- Word-character test on an optional character (`none` = outside the
string, which counts as a non-word position for `\b`). -/
def isWordB : Option Char → Bool
  | none => false
  | some c => isWordChar c

/-- The separator class `[\.\/\-]` of the tax-ID (CNPJ) patterns. -/
def isSepCNPJ (c : Char) : Bool := c == '.' || c == '/' || c == '-'

/-- The separator class `[\-\/]` of the date pattern. -/
def isSepDate (c : Char) : Bool := c == '-' || c == '/'

/-- The class `[\.\,]` of the amount pattern. -/
def isSepAmt (c : Char) : Bool := c == '.' || c == ','

/-- The class `[:\s]` following the literal labels `CNPJ` / `DATA`. -/
def isLabelSep (c : Char) : Bool := c == ':' || isWS c

/-! ### Pre-normalization

`const txt = text.replace(/[\t\r]+/g, ' ').replace(/\s{2,}/g, ' ').toUpperCase();`

Both global replaces substitute each maximal run matched by the pattern
with a single space.  The recursions are driven by a fuel argument equal
to the input length (each step consumes at least one character), keeping
the definitions reducible by the kernel; the fuel-exhausted branch is
unreachable. -/

/-- `replace(/[\t\r]+/g, ' ')`: each maximal run of tabs/CRs becomes one
space. -/
def collapseTabsCRGo : Nat → List Char → List Char
  | _, [] => []
  | 0, s => s
  | fuel + 1, c :: cs =>
    if isTabCR c then ' ' :: collapseTabsCRGo fuel (cs.dropWhile isTabCR)
    else c :: collapseTabsCRGo fuel cs

def collapseTabsCR (s : List Char) : List Char := collapseTabsCRGo s.length s

/-- `replace(/\s{2,}/g, ' ')`: each maximal run of two or more whitespace
characters becomes one space; an isolated whitespace character is kept
as-is. -/
def collapseWSGo : Nat → List Char → List Char
  | _, [] => []
  | 0, s => s
  | fuel + 1, c :: cs =>
    match cs with
    | [] => [c]
    | d :: _ =>
      if isWS c && isWS d then ' ' :: collapseWSGo fuel (cs.dropWhile isWS)
      else c :: collapseWSGo fuel cs

def collapseWS (s : List Char) : List Char := collapseWSGo s.length s

/-- The normalized uppercased text all three field searches run against.
`Char.toUpper` uppercases the ASCII range, which covers every character
the patterns can react to. -/
def normalizeText (text : String) : List Char :=
  ((collapseWS (collapseTabsCR text.data)).map Char.toUpper)

/-! ### Generic leftmost scan

`String.prototype.match` with a non-global regex returns the leftmost
match: the engine tries the pattern at position 0, 1, … (including the
end-of-string position).  `findFirstAux` carries the previous character so
matchers can evaluate the word-boundary assertion `\b`. -/

def findFirstAux {α : Type} (f : Option Char → List Char → Option α) :
    Option Char → List Char → Option α
  | prev, [] => f prev []
  | prev, c :: cs =>
    match f prev (c :: cs) with
    | some r => some r
    | none => findFirstAux f (some c) cs

def findFirst {α : Type} (f : Option Char → List Char → Option α)
    (txt : List Char) : Option α :=
  findFirstAux f none txt

/-- The previous character at scan position `i` (`prev` at the entry
position 0). -/
def posPrev (prev : Option Char) (s : List Char) (i : Nat) : Option Char :=
  if i = 0 then prev else s.get? (i - 1)

/-- Attempting a matcher at absolute position `i` of `txt`. -/
def matchAtPos {α : Type} (f : Option Char → List Char → Option α)
    (txt : List Char) (i : Nat) : Option α :=
  f (posPrev none txt i) (txt.drop i)

/-! ### Shared matcher pieces -/

/-- Exactly `n` digits (`\d{n}`). -/
def takeDigits : Nat → List Char → Option (List Char × List Char)
  | 0, s => some ([], s)
  | _ + 1, [] => none
  | n + 1, c :: cs =>
    if c.isDigit then
      match takeDigits n cs with
      | none => none
      | some (d, r) => some (c :: d, r)
    else none

/-- `[\.\/\-]?` — greedy optional separator.  The following atom is always
`\d`, disjoint from the separator class, so consuming the separator
exactly when present coincides with the backtracking semantics. -/
def optSep : List Char → List Char × List Char
  | [] => ([], [])
  | c :: cs => if isSepCNPJ c then ([c], cs) else ([], c :: cs)

/-- A literal character sequence; returns the rest on success. -/
def matchLit : List Char → List Char → Option (List Char)
  | [], s => some s
  | _ :: _, [] => none
  | p :: ps, c :: cs => if c == p then matchLit ps cs else none

/-! ### Tax-ID (CNPJ) patterns

Unlabeled: `/\b(\d{2}[\.\/\-]?\d{3}[\.\/\-]?\d{3}[\.\/\-]?\d{4}[\.\/\-]?\d{2})\b/`
Labeled fallback: `/CNPJ[:\s]*(\d{2}[\.\/\-]?\d{3}[\.\/\-]?\d{3}[\.\/\-]?\d{4}[\.\/\-]?\d{2})/` -/

/-- The capture group shared by both CNPJ patterns.  Returns the matched
characters (digits with the separators that were present) and the rest. -/
def cnpjBody (s : List Char) : Option (List Char × List Char) :=
  match takeDigits 2 s with
  | none => none
  | some (d1, r1) =>
    match optSep r1 with
    | (s1, r2) =>
      match takeDigits 3 r2 with
      | none => none
      | some (d2, r3) =>
        match optSep r3 with
        | (s2, r4) =>
          match takeDigits 3 r4 with
          | none => none
          | some (d3, r5) =>
            match optSep r5 with
            | (s3, r6) =>
              match takeDigits 4 r6 with
              | none => none
              | some (d4, r7) =>
                match optSep r7 with
                | (s4, r8) =>
                  match takeDigits 2 r8 with
                  | none => none
                  | some (d5, r9) =>
                    some (d1 ++ s1 ++ d2 ++ s2 ++ d3 ++ s3 ++ d4 ++ s4 ++ d5, r9)

/-- The unlabeled CNPJ pattern at one position: `\b`, body, `\b`.  The
first character of the body is a digit (word), so the leading `\b` holds
iff the previous character is non-word; the last is a digit, so the
trailing `\b` holds iff the next character is non-word or absent. -/
def cnpjUnlabeledAt (prev : Option Char) (s : List Char) : Option (List Char) :=
  if isWordB prev then none
  else
    match cnpjBody s with
    | none => none
    | some (m, r) => if isWordB r.head? then none else some m

/-- The labeled CNPJ pattern at one position (no word boundaries):
literal `CNPJ`, then `[:\s]*` (greedy; disjoint from the digit that must
follow), then the capture group. -/
def cnpjLabeledAt (s : List Char) : Option (List Char) :=
  match matchLit ['C', 'N', 'P', 'J'] s with
  | none => none
  | some r =>
    match cnpjBody (r.dropWhile isLabelSep) with
    | none => none
    | some (m, _) => some m

/-- `txt.match(unlabeled) || txt.match(labeled)` — the unlabeled scan is
evaluated first; only if it finds no match anywhere is the labeled scan
consulted. -/
def mCNPJ (txt : List Char) : Option (List Char) :=
  match findFirst cnpjUnlabeledAt txt with
  | some m => some m
  | none => findFirst (fun _ s => cnpjLabeledAt s) txt

/-! ### Date patterns

Unlabeled: `/\b(\d{1,2}[\-\/]\d{1,2}[\-\/]\d{4})\b/`
Labeled fallback: `/DATA[:\s]*(\d{1,2}[\-\/]\d{1,2}[\-\/]\d{4})/` -/

/-- `\d{1,2}` — greedy, followed in the pattern by `[\-\/]`, disjoint
from the digits, so maximal munch up to two digits is exact. -/
def takeDigits12 : List Char → Option (List Char × List Char)
  | [] => none
  | c :: cs =>
    if c.isDigit then
      match cs with
      | [] => some ([c], [])
      | d :: cs2 => if d.isDigit then some ([c, d], cs2) else some ([c], cs)
    else none

/-- `[\-\/]` — one date separator. -/
def takeSepDate : List Char → Option (List Char × List Char)
  | [] => none
  | c :: cs => if isSepDate c then some ([c], cs) else none

/-- The capture group shared by both date patterns. -/
def dateBody (s : List Char) : Option (List Char × List Char) :=
  match takeDigits12 s with
  | none => none
  | some (d1, r1) =>
    match takeSepDate r1 with
    | none => none
    | some (p1, r2) =>
      match takeDigits12 r2 with
      | none => none
      | some (d2, r3) =>
        match takeSepDate r3 with
        | none => none
        | some (p2, r4) =>
          match takeDigits 4 r4 with
          | none => none
          | some (d3, r5) => some (d1 ++ p1 ++ d2 ++ p2 ++ d3, r5)

def dateUnlabeledAt (prev : Option Char) (s : List Char) : Option (List Char) :=
  if isWordB prev then none
  else
    match dateBody s with
    | none => none
    | some (m, r) => if isWordB r.head? then none else some m

def dateLabeledAt (s : List Char) : Option (List Char) :=
  match matchLit ['D', 'A', 'T', 'A'] s with
  | none => none
  | some r =>
    match dateBody (r.dropWhile isLabelSep) with
    | none => none
    | some (m, _) => some m

def mData (txt : List Char) : Option (List Char) :=
  match findFirst dateUnlabeledAt txt with
  | some m => some m
  | none => findFirst (fun _ s => dateLabeledAt s) txt

/-! ### Total pattern

`/(TOTAL|VALOR\s*TOTAL|VALOR\s*A\s*PAGAR|TOTAL\s*A\s*PAGAR|VALOR\s*LIQUIDO)[^\d]*(\d{1,3}(?:[\.\,]\d{3})*[\.\,]\d{2})/`

The label alternatives are tried in source order.  `[^\d]*` cannot cross
a digit, and the label alternatives consist only of letters and `\s*`, so
every alternative that matches at a position leads the amount attempt to
the same first digit; skipping the remaining alternatives once the amount
fails there is therefore exact.  The amount pattern has genuine
backtracking (between `\d{1,3}`, the thousands groups, and the final
`[\.\,]\d{2}`), implemented explicitly below. -/

/-- One label alternative step `\s*LIT` (the whitespace is disjoint from
the letter that must follow). -/
def labelAt (s : List Char) : Option (List Char) :=
  match matchLit ['T', 'O', 'T', 'A', 'L'] s with
  | some r => some r
  | none =>
    match (matchLit ['V', 'A', 'L', 'O', 'R'] s).bind
        (fun r => matchLit ['T', 'O', 'T', 'A', 'L'] (r.dropWhile isWS)) with
    | some r => some r
    | none =>
      match (matchLit ['V', 'A', 'L', 'O', 'R'] s).bind
          (fun r => (matchLit ['A'] (r.dropWhile isWS)).bind
            (fun r2 => matchLit ['P', 'A', 'G', 'A', 'R'] (r2.dropWhile isWS))) with
      | some r => some r
      | none =>
        match (matchLit ['T', 'O', 'T', 'A', 'L'] s).bind
            (fun r => (matchLit ['A'] (r.dropWhile isWS)).bind
              (fun r2 => matchLit ['P', 'A', 'G', 'A', 'R'] (r2.dropWhile isWS))) with
        | some r => some r
        | none =>
          (matchLit ['V', 'A', 'L', 'O', 'R'] s).bind
            (fun r => matchLit ['L', 'I', 'Q', 'U', 'I', 'D', 'O'] (r.dropWhile isWS))

/-- The tail `[\.\,]\d{2}` of the amount pattern. -/
def amountTail3 : List Char → Option (List Char)
  | c :: d :: e :: _ =>
    if isSepAmt c && d.isDigit && e.isDigit then some [c, d, e] else none
  | _ => none

/-- `(?:[\.\,]\d{3})*[\.\,]\d{2}` with the star's greedy backtracking:
first try to consume one four-character thousands group and recurse; if
the recursion fails, fall back to the two-decimal tail here. -/
def amountStar : List Char → Option (List Char)
  | c :: d :: e :: f :: r =>
    if isSepAmt c && d.isDigit && e.isDigit && f.isDigit then
      match amountStar r with
      | some m => some (c :: d :: e :: f :: m)
      | none => amountTail3 (c :: d :: e :: f :: r)
    else amountTail3 (c :: d :: e :: f :: r)
  | s => amountTail3 s

/-- `\d{1,3}(?:[\.\,]\d{3})*[\.\,]\d{2}` — greedy `\d{1,3}` tried with
three, two, then one digit. -/
def amountAt : List Char → Option (List Char)
  | a :: b :: c :: r =>
    match (if a.isDigit && b.isDigit && c.isDigit then
        (amountStar r).map (fun m => a :: b :: c :: m) else none) with
    | some m => some m
    | none =>
      match (if a.isDigit && b.isDigit then
          (amountStar (c :: r)).map (fun m => a :: b :: m) else none) with
      | some m => some m
      | none =>
        if a.isDigit then (amountStar (b :: c :: r)).map (fun m => a :: m) else none
  | _ => none

/-- The whole total pattern at one position: a label alternative, then
`[^\d]*` (greedy up to the first digit, which it cannot cross), then the
amount (capture group 2). -/
def totalAt (s : List Char) : Option (List Char) :=
  match labelAt s with
  | none => none
  | some r => amountAt (r.dropWhile (fun c => !c.isDigit))

def mTotal (txt : List Char) : Option (List Char) :=
  findFirst (fun _ s => totalAt s) txt

/-! ### Field post-processing -/

/-- `cnpj.replace(/[\.\/\-]/g, '')`. -/
def stripSeps (m : List Char) : List Char := m.filter (fun c => !isSepCNPJ c)

/-- The canonical reformat
`${c.slice(0,2)}.${c.slice(2,5)}.${c.slice(5,8)}/${c.slice(8,12)}-${c.slice(12,14)}`. -/
def formatCNPJ (c : List Char) : List Char :=
  c.take 2 ++ '.' :: ((c.drop 2).take 3 ++ '.' :: ((c.drop 5).take 3 ++
    '/' :: ((c.drop 8).take 4 ++ '-' :: (c.drop 12).take 2)))

/-- The CNPJ branch of `parseFields`: strip the separators; if exactly 14
characters remain, reformat canonically, otherwise the stripped text
stands. -/
def cnpjPost (m : List Char) : String :=
  let c := stripSeps m
  if c.length = 14 then String.mk (formatCNPJ c) else String.mk c

/-- `totalStr.replace(/\./g, '')`. -/
def deleteDots (m : List Char) : List Char := m.filter (fun c => !(c == '.'))

/-- `.replace(',', '.')` — only the first comma is replaced (the pattern
is a plain string, not a global regex). -/
def replaceFirstComma : List Char → List Char
  | [] => []
  | c :: cs => if c == ',' then '.' :: cs else c :: replaceFirstComma cs

/-- Digit characters to a natural number. -/
def digitsToNat (ds : List Char) : Nat :=
  ds.foldl (fun n c => 10 * n + (c.toNat - 48)) 0

/-- The rational `n / d`, built directly in reduced form through the
`Rat` structure constructor.  The arithmetic operations on `ℚ` do not
reduce inside the kernel, so constructing the value this way keeps the
extraction pipeline evaluable by `decide`; `ratND_eq_div` below recovers
the usual description. -/
def ratND (n d : Nat) : ℚ :=
  if h : d / n.gcd d ≠ 0 ∧ Nat.gcd (n / n.gcd d) (d / n.gcd d) = 1 then
    ⟨Int.ofNat (n / n.gcd d), d / n.gcd d, h.1, by
      simpa [Int.natAbs_ofNat, Nat.Coprime] using h.2⟩
  else 0

theorem ratND_eq_div (n d : Nat) (hd : d ≠ 0) : ratND n d = (n : ℚ) / (d : ℚ) := by
  have hg : n.gcd d ≠ 0 := fun h => hd (Nat.eq_zero_of_gcd_eq_zero_right h)
  have h1 : d / n.gcd d ≠ 0 :=
    Nat.ne_of_gt (Nat.div_gcd_pos_of_pos_right _ (Nat.pos_of_ne_zero hd))
  have h2 : Nat.gcd (n / n.gcd d) (d / n.gcd d) = 1 :=
    Nat.coprime_div_gcd_div_gcd (Nat.gcd_pos_of_pos_right _ (Nat.pos_of_ne_zero hd))
  rw [ratND, dif_pos ⟨h1, h2⟩]
  have hnum : ((n / n.gcd d : Nat) : ℚ) = (n : ℚ) / (n.gcd d : ℚ) :=
    Nat.cast_div (Nat.gcd_dvd_left n d) (by exact_mod_cast hg)
  have hden : ((d / n.gcd d : Nat) : ℚ) = (d : ℚ) / (n.gcd d : ℚ) :=
    Nat.cast_div (Nat.gcd_dvd_right n d) (by exact_mod_cast hg)
  have hmk : (⟨Int.ofNat (n / n.gcd d), d / n.gcd d, h1, by
      simpa [Int.natAbs_ofNat, Nat.Coprime] using h2⟩ : ℚ)
      = ((n / n.gcd d : Nat) : ℚ) / ((d / n.gcd d : Nat) : ℚ) := by
    rw [Rat.mk'_eq_divInt, Rat.divInt_eq_div]
    simp only [Int.ofNat_eq_natCast, Int.cast_natCast, Int.cast_ofNat]
  rw [hmk, hnum, hden]
  have hgq : ((n.gcd d : Nat) : ℚ) ≠ 0 := by exact_mod_cast hg
  have hdq : ((d : Nat) : ℚ) ≠ 0 := by exact_mod_cast hd
  field_simp

/-- `parseFloat` on the cleaned amount, as a rational: a prefix parse of
an unsigned decimal literal (integer digits, optional point, fraction
digits), `none` when no digit is found (NaN).  The value
`ip + fp / 10 ^ |fp|` is produced through `ratND` as
`(ip * 10 ^ |fp| + fp) / 10 ^ |fp|`.  The cleaned amounts here always
start with a digit and contain no sign, exponent or leading whitespace,
so this covers the reachable behavior. -/
def parseFloatQ (s : List Char) : Option ℚ :=
  let ip := s.takeWhile Char.isDigit
  let r := s.drop ip.length
  let fp :=
    match r with
    | '.' :: r2 => r2.takeWhile Char.isDigit
    | _ => []
  if ip.isEmpty && fp.isEmpty then none
  else some (ratND (digitsToNat ip * 10 ^ fp.length + digitsToNat fp) (10 ^ fp.length))

/-- The total branch of `parseFields` (the `if (totalStr)` guard and the
NaN check, the latter rendered by `parseFloatQ` returning `none`). -/
def totalPost (m : List Char) : Option ℚ :=
  if m.isEmpty then none else parseFloatQ (replaceFirstComma (deleteDots m))

/-- The record `{ cnpj, data, total }` the component stores
(`OCRResult`). -/
structure ExtractedFields where
  cnpj : Option String
  data : Option String
  total : Option ℚ
deriving DecidableEq, Repr

/-- `parseFields` of `OCRDetector.tsx`: the early return on empty text,
the pre-normalization, the three pattern searches (group 1 for CNPJ and
date — always non-empty when the pattern matches — group 2 for the
total), and the per-field post-processing. -/
def parseFields (text : String) : ExtractedFields :=
  if text = "" then ⟨none, none, none⟩
  else
    let txt := normalizeText text
    ⟨(mCNPJ txt).map cnpjPost, (mData txt).map String.mk, (mTotal txt).bind totalPost⟩

/-! ### Image normalizer (`preprocessIfNeeded`)

The pre-processing path of `preprocessIfNeeded`: scale the image down to a
maximum width (`const maxW = 1600; ratio = Math.min(1, maxW / width)`),
draw it at the new size through the canvas (the resampling plus the fixed
`contrast(1.2) brightness(1.1)` filter is an opaque browser primitive,
modelled as a `resample` parameter producing the contrast-adjusted pixel
buffer), compute the mean luminance of that buffer, then binarize every
pixel against `mean * 0.9` with alpha forced to 255.  Pixel channels are
8-bit values, modelled as naturals; the JS float arithmetic on luminances
is modelled over `ℚ`. -/

/-- One RGBA pixel (`d[i] .. d[i+3]`). -/
structure Px where
  r : Nat
  g : Nat
  b : Nat
  a : Nat
deriving DecidableEq, Repr

/-- `0.299 * d[i] + 0.587 * d[i+1] + 0.114 * d[i+2]`. -/
def lum (p : Px) : ℚ := 0.299 * p.r + 0.587 * p.g + 0.114 * p.b

/-- `mean = sum / (d.length / 4)` — the mean luminance over all pixels. -/
def meanLum (d : List Px) : ℚ := (d.map lum).sum / d.length

/-- The second pass on one pixel: `v = y > mean * 0.9 ? 255 : 0;
d[i] = d[i+1] = d[i+2] = v; d[i+3] = 255`. -/
def binarizePx (m : ℚ) (p : Px) : Px :=
  if lum p > m * 0.9 then ⟨255, 255, 255, 255⟩ else ⟨0, 0, 0, 255⟩

/-- Both passes of the adaptive threshold over the buffer. -/
def binarize (d : List Px) : List Px := d.map (binarizePx (meanLum d))

/-- An image: dimensions plus the RGBA buffer. -/
structure Img where
  width : Nat
  height : Nat
  data : List Px
deriving DecidableEq, Repr

/-- `Math.round` on a nonnegative value: floor of `q + 1/2`. -/
def jsRound (q : ℚ) : Nat := (Int.floor (q + 1 / 2)).toNat

/-- `ratio = Math.min(1, maxW / image.width)`;
`w = Math.round(image.width * ratio)`, `h = Math.round(image.height * ratio)`. -/
def scaledDims (maxW w h : Nat) : Nat × Nat :=
  let ratio : ℚ := min 1 ((maxW : ℚ) / (w : ℚ))
  (jsRound ((w : ℚ) * ratio), jsRound ((h : ℚ) * ratio))

/-- The pre-processing pipeline on one image: new dimensions, the opaque
contrast-adjusted resample into the canvas at those dimensions, then the
luminance binarization of the resulting buffer.  The code fixes
`maxW = 1600`; the width bound is a parameter here. -/
def preprocessCore (resample : Nat → Nat → Img → List Px) (maxW : Nat)
    (img : Img) : Img :=
  let w := (scaledDims maxW img.width img.height).1
  let h := (scaledDims maxW img.width img.height).2
  ⟨w, h, binarize (resample w h img)⟩

/-- The component state `preprocessIfNeeded` reads and writes: the
`preprocessImage` toggle and the `currentBlob` holding the image to be
recognized. -/
structure OCRState where
  preprocessImage : Bool
  currentBlob : Option Img
deriving DecidableEq, Repr

/-- `preprocessIfNeeded`: when the toggle is off or there is no current
blob, resolve with the current blob unchanged; otherwise produce the
pre-processed image, store it back into the component state
(`setCurrentBlob(b)`) and resolve with it.  (`canvas.toBlob` delivering a
PNG of the canvas content is modelled as succeeding.) -/
def preprocessIfNeeded (resample : Nat → Nat → Img → List Px)
    (s : OCRState) : Option Img × OCRState :=
  match s.preprocessImage, s.currentBlob with
  | false, _ => (s.currentBlob, s)
  | true, none => (s.currentBlob, s)
  | true, some img =>
    let out := preprocessCore resample 1600 img
    (some out, ⟨s.preprocessImage, some out⟩)

/-! ### Lemmas about the scan and the CNPJ matcher -/

theorem findFirstAux_exists {α : Type} (f : Option Char → List Char → Option α) :
    ∀ (s : List Char) (prev : Option Char) (r : α),
      findFirstAux f prev s = some r → ∃ p u, f p u = some r := by
  intro s
  induction s with
  | nil => intro prev r h; exact ⟨prev, [], h⟩
  | cons c cs ih =>
    intro prev r h
    simp only [findFirstAux] at h
    cases h0 : f prev (c :: cs) with
    | some r2 => exact ⟨prev, c :: cs, by rw [h0] at h ⊢; exact h⟩
    | none => rw [h0] at h; exact ih (some c) r h

theorem findFirstAux_leftmost {α : Type} (f : Option Char → List Char → Option α) :
    ∀ (s : List Char) (prev : Option Char) (r : α),
      findFirstAux f prev s = some r →
      ∃ i, i ≤ s.length ∧ f (posPrev prev s i) (s.drop i) = some r ∧
        ∀ j < i, f (posPrev prev s j) (s.drop j) = none := by
  intro s
  induction s with
  | nil =>
    intro prev r h
    exact ⟨0, Nat.le_refl _, by simpa [posPrev] using h,
      fun j hj => absurd hj (Nat.not_lt_zero j)⟩
  | cons c cs ih =>
    intro prev r h
    simp only [findFirstAux] at h
    cases h0 : f prev (c :: cs) with
    | some r2 =>
      rw [h0] at h
      refine ⟨0, Nat.zero_le _, ?_, fun j hj => absurd hj (Nat.not_lt_zero j)⟩
      simpa [posPrev] using h0.trans h
    | none =>
      rw [h0] at h
      obtain ⟨i, hle, hm, hn⟩ := ih (some c) r h
      have hpp : ∀ k : Nat, posPrev prev (c :: cs) (k + 1) = posPrev (some c) cs k := by
        intro k
        cases k with
        | zero => simp [posPrev]
        | succ k2 => simp [posPrev, List.get?]
      refine ⟨i + 1, Nat.succ_le_succ hle, ?_, ?_⟩
      · rw [show (c :: cs).drop (i + 1) = cs.drop i from rfl, hpp i]
        exact hm
      · intro j hj
        cases j with
        | zero => simpa [posPrev] using h0
        | succ k =>
          rw [show (c :: cs).drop (k + 1) = cs.drop k from rfl, hpp k]
          exact hn k (Nat.lt_of_succ_lt_succ hj)

theorem takeDigits_spec : ∀ (n : Nat) (s d r : List Char),
    takeDigits n s = some (d, r) →
    d.length = n ∧ (∀ x ∈ d, x.isDigit = true) ∧ s = d ++ r := by
  intro n
  induction n with
  | zero =>
    intro s d r h
    simp only [takeDigits, Option.some.injEq, Prod.mk.injEq] at h
    obtain ⟨h1, h2⟩ := h
    subst h1; subst h2
    simp
  | succ n ih =>
    intro s d r h
    cases s with
    | nil => simp [takeDigits] at h
    | cons c cs =>
      simp only [takeDigits] at h
      by_cases hc : c.isDigit
      · rw [if_pos hc] at h
        cases h2 : takeDigits n cs with
        | none => rw [h2] at h; simp at h
        | some dr =>
          obtain ⟨d2, r2⟩ := dr
          rw [h2] at h
          simp only [Option.some.injEq, Prod.mk.injEq] at h
          obtain ⟨hd, hr⟩ := h
          obtain ⟨hl, hdig, happ⟩ := ih cs d2 r2 h2
          subst hd; subst hr
          refine ⟨by simp [hl], ?_, by simp [happ]⟩
          intro x hx
          rcases List.mem_cons.mp hx with rfl | hx2
          · exact hc
          · exact hdig x hx2
      · rw [if_neg hc] at h; simp at h

theorem optSep_spec (s : List Char) :
    ∀ p r, optSep s = (p, r) →
      (p = [] ∧ r = s) ∨ ∃ c, p = [c] ∧ isSepCNPJ c = true ∧ s = c :: r := by
  intro p r h
  cases s with
  | nil =>
    simp only [optSep, Prod.mk.injEq] at h
    exact Or.inl ⟨h.1.symm, h.2.symm⟩
  | cons c cs =>
    simp only [optSep] at h
    by_cases hc : isSepCNPJ c
    · rw [if_pos hc] at h
      simp only [Prod.mk.injEq] at h
      exact Or.inr ⟨c, h.1.symm, hc, by rw [h.2]⟩
    · rw [if_neg hc] at h
      simp only [Prod.mk.injEq] at h
      exact Or.inl ⟨h.1.symm, h.2.symm⟩

theorem digit_not_sep {c : Char} (h : c.isDigit = true) : isSepCNPJ c = false := by
  rcases Bool.eq_false_or_eq_true (isSepCNPJ c) with ht | hf
  · exfalso
    have hc : (c = '.' ∨ c = '/') ∨ c = '-' := by
      simpa [isSepCNPJ] using ht
    rcases hc with (rfl | rfl) | rfl <;> exact absurd h (by decide)
  · exact hf

theorem stripSeps_of_digits {d : List Char} (h : ∀ x ∈ d, x.isDigit = true) :
    stripSeps d = d := by
  apply List.filter_eq_self.mpr
  intro a ha
  simp [digit_not_sep (h a ha)]

theorem stripSeps_sep_part {p : List Char}
    (h : p = [] ∨ ∃ c, p = [c] ∧ isSepCNPJ c = true ∧ True) :
    stripSeps p = [] := by
  rcases h with rfl | ⟨c, rfl, hc, -⟩
  · rfl
  · simp [stripSeps, hc]

theorem cnpjBody_strip {s m r : List Char} (h : cnpjBody s = some (m, r)) :
    (stripSeps m).length = 14 ∧ ∀ x ∈ stripSeps m, x.isDigit = true := by
  simp only [cnpjBody] at h
  cases h1 : takeDigits 2 s with
  | none => simp [h1] at h
  | some v1 =>
  obtain ⟨d1, r1⟩ := v1
  simp only [h1] at h
  cases h2 : takeDigits 3 (optSep r1).2 with
  | none => simp [h2] at h
  | some v2 =>
  obtain ⟨d2, r3⟩ := v2
  simp only [h2] at h
  cases h3 : takeDigits 3 (optSep r3).2 with
  | none => simp [h3] at h
  | some v3 =>
  obtain ⟨d3, r5⟩ := v3
  simp only [h3] at h
  cases h4 : takeDigits 4 (optSep r5).2 with
  | none => simp [h4] at h
  | some v4 =>
  obtain ⟨d4, r7⟩ := v4
  simp only [h4] at h
  cases h5 : takeDigits 2 (optSep r7).2 with
  | none => simp [h5] at h
  | some v5 =>
  obtain ⟨d5, r9⟩ := v5
  simp only [h5, Option.some.injEq, Prod.mk.injEq] at h
  obtain ⟨hm, -⟩ := h
  obtain ⟨hl1, hg1, -⟩ := takeDigits_spec 2 s d1 r1 h1
  obtain ⟨hl2, hg2, -⟩ := takeDigits_spec 3 (optSep r1).2 d2 r3 h2
  obtain ⟨hl3, hg3, -⟩ := takeDigits_spec 3 (optSep r3).2 d3 r5 h3
  obtain ⟨hl4, hg4, -⟩ := takeDigits_spec 4 (optSep r5).2 d4 r7 h4
  obtain ⟨hl5, hg5, -⟩ := takeDigits_spec 2 (optSep r7).2 d5 r9 h5
  have hsep : ∀ u : List Char, stripSeps (optSep u).1 = [] := by
    intro u
    rcases optSep_spec u (optSep u).1 (optSep u).2 rfl with ⟨hp, -⟩ | ⟨c, hp, hc, -⟩
    · exact stripSeps_sep_part (Or.inl hp)
    · exact stripSeps_sep_part (Or.inr ⟨c, hp, hc, trivial⟩)
  have hstrip : stripSeps m = d1 ++ (d2 ++ (d3 ++ (d4 ++ d5))) := by
    rw [← hm]
    simp only [stripSeps, List.filter_append] at hsep ⊢
    rw [show List.filter (fun c => !isSepCNPJ c) d1 = d1 from stripSeps_of_digits hg1,
      show List.filter (fun c => !isSepCNPJ c) d2 = d2 from stripSeps_of_digits hg2,
      show List.filter (fun c => !isSepCNPJ c) d3 = d3 from stripSeps_of_digits hg3,
      show List.filter (fun c => !isSepCNPJ c) d4 = d4 from stripSeps_of_digits hg4,
      show List.filter (fun c => !isSepCNPJ c) d5 = d5 from stripSeps_of_digits hg5,
      hsep r1, hsep r3, hsep r5, hsep r7]
    simp
  constructor
  · rw [hstrip]
    simp [List.length_append, hl1, hl2, hl3, hl4, hl5]
  · intro x hx
    rw [hstrip] at hx
    simp only [List.mem_append] at hx
    rcases hx with hx | hx | hx | hx | hx
    · exact hg1 x hx
    · exact hg2 x hx
    · exact hg3 x hx
    · exact hg4 x hx
    · exact hg5 x hx

theorem mCNPJ_body {txt m : List Char} (h : mCNPJ txt = some m) :
    ∃ s r, cnpjBody s = some (m, r) := by
  simp only [mCNPJ] at h
  cases h1 : findFirst cnpjUnlabeledAt txt with
  | some m2 =>
    rw [h1] at h
    simp only [Option.some.injEq] at h
    subst h
    obtain ⟨p, u, hf⟩ := findFirstAux_exists cnpjUnlabeledAt txt none m2 h1
    simp only [cnpjUnlabeledAt] at hf
    by_cases hw : isWordB p
    · rw [if_pos hw] at hf; simp at hf
    · rw [if_neg hw] at hf
      cases h2 : cnpjBody u with
      | none => simp [h2] at hf
      | some v =>
        obtain ⟨m3, r3⟩ := v
        simp only [h2] at hf
        by_cases hw2 : isWordB r3.head?
        · rw [if_pos hw2] at hf; simp at hf
        · rw [if_neg hw2] at hf
          simp only [Option.some.injEq] at hf
          exact ⟨u, r3, by rw [h2, hf]⟩
  | none =>
    rw [h1] at h
    obtain ⟨p, u, hf⟩ := findFirstAux_exists (fun _ s => cnpjLabeledAt s) txt none m h
    simp only [cnpjLabeledAt] at hf
    cases h2 : matchLit ['C', 'N', 'P', 'J'] u with
    | none => simp [h2] at hf
    | some r2 =>
      simp only [h2] at hf
      cases h3 : cnpjBody (r2.dropWhile isLabelSep) with
      | none => simp [h3] at hf
      | some v =>
        obtain ⟨m3, r3⟩ := v
        simp only [h3, Option.some.injEq] at hf
        exact ⟨r2.dropWhile isLabelSep, r3, by rw [h3, hf]⟩

theorem mCNPJ_strip14 {txt m : List Char} (h : mCNPJ txt = some m) :
    (stripSeps m).length = 14 ∧ ∀ x ∈ stripSeps m, x.isDigit = true := by
  obtain ⟨s, r, hb⟩ := mCNPJ_body h
  exact cnpjBody_strip hb

/-! ### Lemmas about the total matcher and the `parseFields` projections -/

theorem amountAt_cons {s m : List Char} (h : amountAt s = some m) :
    ∃ a t, m = a :: t := by
  cases s with
  | nil => simp [amountAt] at h
  | cons a s2 =>
  cases s2 with
  | nil => simp [amountAt] at h
  | cons b s3 =>
  cases s3 with
  | nil => simp [amountAt] at h
  | cons c r =>
  simp only [amountAt] at h
  split at h
  next m1 heq =>
    rw [Option.some.injEq] at h
    subst h
    split at heq
    · obtain ⟨mm, -, hmm⟩ := Option.map_eq_some'.mp heq
      exact ⟨a, b :: c :: mm, hmm.symm⟩
    · simp at heq
  next heq =>
    split at h
    next m1 heq2 =>
      rw [Option.some.injEq] at h
      subst h
      split at heq2
      · obtain ⟨mm, -, hmm⟩ := Option.map_eq_some'.mp heq2
        exact ⟨a, b :: mm, hmm.symm⟩
      · simp at heq2
    next heq2 =>
      split at h
      · obtain ⟨mm, -, hmm⟩ := Option.map_eq_some'.mp h
        exact ⟨a, mm, hmm.symm⟩
      · simp at h

theorem totalAt_cons {s m : List Char} (h : totalAt s = some m) :
    ∃ a t, m = a :: t := by
  simp only [totalAt] at h
  cases h1 : labelAt s with
  | none => simp [h1] at h
  | some r =>
    simp only [h1] at h
    exact amountAt_cons h

theorem mTotal_cons {txt m : List Char} (h : mTotal txt = some m) :
    ∃ a t, m = a :: t := by
  obtain ⟨p, u, hf⟩ := findFirstAux_exists (fun _ s => totalAt s) txt none m h
  exact totalAt_cons hf

theorem parseFields_cnpj_eq {t : String} {m : List Char} (ht : t ≠ "")
    (h : mCNPJ (normalizeText t) = some m) :
    (parseFields t).cnpj = some (cnpjPost m) := by
  simp [parseFields, ht, h]

theorem parseFields_data_eq {t : String} {m : List Char} (ht : t ≠ "")
    (h : mData (normalizeText t) = some m) :
    (parseFields t).data = some (String.mk m) := by
  simp [parseFields, ht, h]

theorem parseFields_total_eq {t : String} {m : List Char} (ht : t ≠ "")
    (h : mTotal (normalizeText t) = some m) :
    (parseFields t).total = totalPost m := by
  simp [parseFields, ht, h]

theorem parseFields_cnpj_inv {t : String} {v : String}
    (h : (parseFields t).cnpj = some v) :
    ∃ m, mCNPJ (normalizeText t) = some m ∧ v = cnpjPost m := by
  by_cases ht : t = ""
  · subst ht; simp [parseFields] at h
  · simp only [parseFields, if_neg ht] at h
    obtain ⟨m, hm, hv⟩ := Option.map_eq_some'.mp h
    exact ⟨m, hm, hv.symm⟩

/-! ### Claim theorems -/

/-- C1 (counterexample): contrary to the claim, the text
`"VALOR LIQUIDO 45.00"` does not yield a total of `45.00`: the amount's
`.` is not treated as a decimal point — the normalization deletes every
`.` before parsing, so the extracted total is `4500`. -/
theorem claimC1_counterexample :
    (parseFields "VALOR LIQUIDO 45.00").total = some (4500 : ℚ) ∧
    (parseFields "VALOR LIQUIDO 45.00").total ≠ some (45 : ℚ) := by
  have h : (parseFields "VALOR LIQUIDO 45.00").total = some (ratND 4500 1) := by decide
  have he : ratND 4500 1 = (4500 : ℚ) := by
    rw [ratND_eq_div 4500 1 (by norm_num)]; norm_num
  refine ⟨by rw [h, he], ?_⟩
  rw [h, he]
  intro hc
  rw [Option.some.injEq] at hc
  norm_num at hc

/-- C1 (amended): for any non-empty input text whose first total
label/amount match has the amount `"45.00"` (in particular the text
`"VALOR LIQUIDO 45.00"`), the extracted total is `4500`: the `.` is
deleted as a thousands separator by the normalization rule, not treated
as a decimal point. -/
theorem claimC1_amended (t : String) (ht : t ≠ "")
    (h : mTotal (normalizeText t) = some ['4', '5', '.', '0', '0']) :
    (parseFields t).total = some (4500 : ℚ) := by
  rw [parseFields_total_eq ht h]
  have h2 : totalPost ['4', '5', '.', '0', '0'] = some (ratND 4500 1) := by decide
  rw [h2, ratND_eq_div 4500 1 (by norm_num)]
  norm_num

/-- C1 (witness for the amended claim). -/
theorem claimC1_witness :
    (parseFields "VALOR LIQUIDO 45.00").total = some (4500 : ℚ) :=
  claimC1_amended "VALOR LIQUIDO 45.00" (by decide) (by decide)

/-- C2: whenever the total pattern matches (a label token followed,
skipping non-digits, by an amount matching the decimal pattern), the
extracted total is the matched amount with every `.` deleted, the
remaining first `,` replaced by `.`, parsed as a (rational-valued)
floating-point number — `none` on parse failure rather than an error; in
particular `"TOTAL A PAGAR: 1.234,56"` yields `1234.56`. -/
theorem claimC2 :
    (∀ (t : String) (m : List Char), t ≠ "" → mTotal (normalizeText t) = some m →
      (parseFields t).total = parseFloatQ (replaceFirstComma (deleteDots m))) ∧
    (parseFields "TOTAL A PAGAR: 1.234,56").total = some (1234.56 : ℚ) := by
  constructor
  · intro t m ht h
    rw [parseFields_total_eq ht h]
    obtain ⟨a, tl, rfl⟩ := mTotal_cons h
    simp [totalPost]
  · have h : (parseFields "TOTAL A PAGAR: 1.234,56").total
        = some (ratND 123456 100) := by decide
    rw [h, ratND_eq_div 123456 100 (by norm_num)]
    norm_num

/-- C2 (witness). -/
theorem claimC2_witness :
    (parseFields "TOTAL A PAGAR: 1.234,56").total
      = parseFloatQ (replaceFirstComma (deleteDots
          ['1', '.', '2', '3', '4', ',', '5', '6'])) :=
  claimC2.1 "TOTAL A PAGAR: 1.234,56" ['1', '.', '2', '3', '4', ',', '5', '6']
    (by decide) (by decide)

/-- C5: extraction is a pure, deterministic function of the input text —
two runs on identical text return identical `{cnpj, data, total}`
records (the embedding of `parseFields` is a function of the text alone,
mirroring that the source computes only from its `text` argument and
JS strings are immutable). -/
theorem claimC5 (t1 t2 : String) (h : t1 = t2) : parseFields t1 = parseFields t2 := by
  rw [h]

/-- C5 (witness). -/
theorem claimC5_witness :
    parseFields "NOTA FISCAL" = parseFields "NOTA FISCAL" :=
  claimC5 "NOTA FISCAL" "NOTA FISCAL" rfl

/-- C6: extraction is total and never raises: absence of a match is
`none` for that field; when none of the three patterns matches —
including on the empty string — all three fields are `none`. -/
theorem claimC6 :
    (∀ t : String, mCNPJ (normalizeText t) = none → mData (normalizeText t) = none →
      mTotal (normalizeText t) = none → parseFields t = ⟨none, none, none⟩) ∧
    parseFields "" = ⟨none, none, none⟩ := by
  constructor
  · intro t h1 h2 h3
    by_cases ht : t = ""
    · subst ht; rfl
    · simp [parseFields, ht, h1, h2, h3]
  · rfl

/-- C6 (witness). -/
theorem claimC6_witness : parseFields "SEM CAMPOS AQUI" = ⟨none, none, none⟩ :=
  claimC6.1 "SEM CAMPOS AQUI" (by decide) (by decide) (by decide)

/-- C7: the date field is the matched `\d{1,2}[\-\/]\d{1,2}[\-\/]\d{4}`
substring passed through verbatim — no reformatting and no calendar
validation; `"05/03/2024"` comes out verbatim and the calendar-invalid
`"31/02/9999"` is accepted as-is. -/
theorem claimC7 :
    (∀ (t : String) (m : List Char), t ≠ "" → mData (normalizeText t) = some m →
      (parseFields t).data = some (String.mk m)) ∧
    (parseFields "EMITIDO EM 05/03/2024").data = some "05/03/2024" ∧
    (parseFields "VENCE 31/02/9999").data = some "31/02/9999" := by
  refine ⟨?_, by decide, by decide⟩
  intro t m ht h
  exact parseFields_data_eq ht h

/-- C7 (witness). -/
theorem claimC7_witness :
    (parseFields "EMITIDO EM 05/03/2024").data
      = some (String.mk ['0', '5', '/', '0', '3', '/', '2', '0', '2', '4']) :=
  claimC7.1 "EMITIDO EM 05/03/2024" ['0', '5', '/', '0', '3', '/', '2', '0', '2', '4']
    (by decide) (by decide)

/-- C3: whenever the tax-ID pattern matches, the separators `.`, `/`,
`-` are stripped from the match; exactly 14 digits always remain (so the
non-14 fallback of the code is unreachable, making the claim's
"otherwise the raw matched text stands" clause vacuous), and the value
is reformatted canonically as `DD.DDD.DDD/DDDD-DD`; in particular
`"12345678000199"` yields `"12.345.678/0001-99"` and the already
punctuated `"12.345.678/0001-99"` round-trips to the same canonical
output. -/
theorem claimC3 :
    (∀ (t : String) (m : List Char), t ≠ "" → mCNPJ (normalizeText t) = some m →
      (stripSeps m).length = 14 ∧
      (parseFields t).cnpj = some (String.mk (formatCNPJ (stripSeps m)))) ∧
    (parseFields "12345678000199").cnpj = some "12.345.678/0001-99" ∧
    (parseFields "12.345.678/0001-99").cnpj = some "12.345.678/0001-99" := by
  refine ⟨?_, by decide, by decide⟩
  intro t m ht h
  obtain ⟨hlen, -⟩ := mCNPJ_strip14 h
  refine ⟨hlen, ?_⟩
  rw [parseFields_cnpj_eq ht h]
  simp [cnpjPost, hlen]

/-- C3 (witness). -/
theorem claimC3_witness :
    (stripSeps ['1', '2', '.', '3', '4', '5', '.', '6', '7', '8', '/', '0',
      '0', '0', '1', '-', '9', '9']).length = 14 ∧
    (parseFields "12.345.678/0001-99").cnpj
      = some (String.mk (formatCNPJ (stripSeps ['1', '2', '.', '3', '4', '5',
          '.', '6', '7', '8', '/', '0', '0', '0', '1', '-', '9', '9']))) :=
  claimC3.1 "12.345.678/0001-99" ['1', '2', '.', '3', '4', '5', '.', '6', '7',
    '8', '/', '0', '0', '0', '1', '-', '9', '9'] (by decide) (by decide)

/-- The canonical 18-character tax-ID shape `DD.DDD.DDD/DDDD-DD`: five
all-digit groups of sizes 2, 3, 3, 4, 2 joined by `.`, `.`, `/`, `-`. -/
def IsCanonicalCNPJ (v : String) : Prop :=
  ∃ a b c d e : List Char,
    a.length = 2 ∧ b.length = 3 ∧ c.length = 3 ∧ d.length = 4 ∧ e.length = 2 ∧
    (∀ x ∈ a ++ b ++ c ++ d ++ e, x.isDigit = true) ∧
    v.data = a ++ '.' :: (b ++ '.' :: (c ++ '/' :: (d ++ '-' :: e)))

/-- C10: every non-`none` tax-ID value produced by extraction is exactly
the canonical 18-character `DD.DDD.DDD/DDDD-DD` format: both tax-ID
patterns capture exactly 14 digits with at most one separator at each
boundary, so the stripped digit count is always 14 and the
unreformatted-fallback branch is unreachable. -/
theorem claimC10 (t : String) (v : String)
    (h : (parseFields t).cnpj = some v) :
    v.length = 18 ∧ IsCanonicalCNPJ v := by
  obtain ⟨m, hm, hv⟩ := parseFields_cnpj_inv h
  obtain ⟨hlen, hdig⟩ := mCNPJ_strip14 hm
  subst hv
  rw [cnpjPost, if_pos hlen]
  set c : List Char := stripSeps m with hc
  have hdata : (String.mk (formatCNPJ c)).data = formatCNPJ c := rfl
  have hmem : ∀ x ∈ c.take 2 ++ ((c.drop 2).take 3 ++ ((c.drop 5).take 3 ++
      ((c.drop 8).take 4 ++ (c.drop 12).take 2))), x.isDigit = true := by
    intro x hx
    simp only [List.mem_append] at hx
    rcases hx with hx | hx | hx | hx | hx
    · exact hdig x (List.take_subset _ _ hx)
    · exact hdig x (List.drop_subset _ _ (List.take_subset _ _ hx))
    · exact hdig x (List.drop_subset _ _ (List.take_subset _ _ hx))
    · exact hdig x (List.drop_subset _ _ (List.take_subset _ _ hx))
    · exact hdig x (List.drop_subset _ _ (List.take_subset _ _ hx))
  constructor
  · show (String.mk (formatCNPJ c)).length = 18
    simp only [String.length, hdata, formatCNPJ]
    simp [List.length_append, List.length_take, List.length_drop, hlen]
  · refine ⟨c.take 2, (c.drop 2).take 3, (c.drop 5).take 3, (c.drop 8).take 4,
      (c.drop 12).take 2, ?_, ?_, ?_, ?_, ?_, ?_, ?_⟩
    · simp [List.length_take, hlen]
    · simp [List.length_take, List.length_drop, hlen]
    · simp [List.length_take, List.length_drop, hlen]
    · simp [List.length_take, List.length_drop, hlen]
    · simp [List.length_take, List.length_drop, hlen]
    · intro x hx
      apply hmem
      simpa [List.append_assoc] using hx
    · rw [hdata]
      simp [formatCNPJ]

/-- C10 (witness). -/
theorem claimC10_witness :
    ("12.345.678/0001-99" : String).length = 18 ∧
    IsCanonicalCNPJ "12.345.678/0001-99" :=
  claimC10 "12345678000199" "12.345.678/0001-99" (by decide)

/-- C4: for every non-empty text, every pattern search (the unlabeled
tax-ID and date scans, their label-prefixed fallback scans, and the
total scan) is first-match-wins left-to-right over the normalized
uppercased text: the reported match sits at the least position at which
that pattern matches, and all earlier positions fail.  For the two
fields that have both patterns (tax ID and date) the unlabeled pattern
is evaluated first unconditionally: whenever it matches anywhere, its
match is the one used, regardless of where the label-prefixed pattern
would match; only when the unlabeled pattern matches nowhere is the
label-prefixed scan consulted, and its leftmost match is then used. -/
theorem claimC4 (t : String) (ht : t ≠ "") :
    (∀ m, findFirst cnpjUnlabeledAt (normalizeText t) = some m →
      (parseFields t).cnpj = some (cnpjPost m) ∧
      ∃ i, matchAtPos cnpjUnlabeledAt (normalizeText t) i = some m ∧
        ∀ j < i, matchAtPos cnpjUnlabeledAt (normalizeText t) j = none) ∧
    (∀ m, findFirst cnpjUnlabeledAt (normalizeText t) = none →
      findFirst (fun _ s => cnpjLabeledAt s) (normalizeText t) = some m →
      (parseFields t).cnpj = some (cnpjPost m) ∧
      ∃ i, matchAtPos (fun _ s => cnpjLabeledAt s) (normalizeText t) i = some m ∧
        ∀ j < i, matchAtPos (fun _ s => cnpjLabeledAt s) (normalizeText t) j = none) ∧
    (∀ m, findFirst dateUnlabeledAt (normalizeText t) = some m →
      (parseFields t).data = some (String.mk m) ∧
      ∃ i, matchAtPos dateUnlabeledAt (normalizeText t) i = some m ∧
        ∀ j < i, matchAtPos dateUnlabeledAt (normalizeText t) j = none) ∧
    (∀ m, findFirst dateUnlabeledAt (normalizeText t) = none →
      findFirst (fun _ s => dateLabeledAt s) (normalizeText t) = some m →
      (parseFields t).data = some (String.mk m) ∧
      ∃ i, matchAtPos (fun _ s => dateLabeledAt s) (normalizeText t) i = some m ∧
        ∀ j < i, matchAtPos (fun _ s => dateLabeledAt s) (normalizeText t) j = none) ∧
    (∀ m, mTotal (normalizeText t) = some m →
      ∃ i, matchAtPos (fun _ s => totalAt s) (normalizeText t) i = some m ∧
        ∀ j < i, matchAtPos (fun _ s => totalAt s) (normalizeText t) j = none) := by
  refine ⟨?_, ?_, ?_, ?_, ?_⟩
  · intro m h
    have hc : mCNPJ (normalizeText t) = some m := by simp [mCNPJ, h]
    refine ⟨parseFields_cnpj_eq ht hc, ?_⟩
    obtain ⟨i, -, hm, hn⟩ := findFirstAux_leftmost cnpjUnlabeledAt
      (normalizeText t) none m h
    exact ⟨i, hm, hn⟩
  · intro m hnone h
    have hc : mCNPJ (normalizeText t) = some m := by simp [mCNPJ, hnone, h]
    refine ⟨parseFields_cnpj_eq ht hc, ?_⟩
    obtain ⟨i, -, hm, hn⟩ := findFirstAux_leftmost (fun _ s => cnpjLabeledAt s)
      (normalizeText t) none m h
    exact ⟨i, hm, hn⟩
  · intro m h
    have hc : mData (normalizeText t) = some m := by simp [mData, h]
    refine ⟨parseFields_data_eq ht hc, ?_⟩
    obtain ⟨i, -, hm, hn⟩ := findFirstAux_leftmost dateUnlabeledAt
      (normalizeText t) none m h
    exact ⟨i, hm, hn⟩
  · intro m hnone h
    have hc : mData (normalizeText t) = some m := by simp [mData, hnone, h]
    refine ⟨parseFields_data_eq ht hc, ?_⟩
    obtain ⟨i, -, hm, hn⟩ := findFirstAux_leftmost (fun _ s => dateLabeledAt s)
      (normalizeText t) none m h
    exact ⟨i, hm, hn⟩
  · intro m h
    obtain ⟨i, -, hm, hn⟩ := findFirstAux_leftmost (fun _ s => totalAt s)
      (normalizeText t) none m h
    exact ⟨i, hm, hn⟩

/-- C4 (witness): in `"CNPJ: 11.222.333/0001-44"` the unlabeled tax-ID
pattern matches and the reported field uses its leftmost match; in
`"CNPJ:123456780001999"` (fifteen digits, so the unlabeled pattern's
trailing word boundary fails everywhere) the unlabeled scan finds
nothing and the field uses the leftmost match of the label-prefixed
fallback scan. -/
theorem claimC4_witness :
    ((parseFields "CNPJ: 11.222.333/0001-44").cnpj
      = some (cnpjPost ['1', '1', '.', '2', '2', '2', '.', '3', '3', '3', '/',
          '0', '0', '0', '1', '-', '4', '4']) ∧
    ∃ i, matchAtPos cnpjUnlabeledAt (normalizeText "CNPJ: 11.222.333/0001-44") i
        = some ['1', '1', '.', '2', '2', '2', '.', '3', '3', '3', '/', '0',
          '0', '0', '1', '-', '4', '4'] ∧
      ∀ j < i, matchAtPos cnpjUnlabeledAt
          (normalizeText "CNPJ: 11.222.333/0001-44") j = none) ∧
    ((parseFields "CNPJ:123456780001999").cnpj
      = some (cnpjPost ['1', '2', '3', '4', '5', '6', '7', '8', '0', '0', '0',
          '1', '9', '9']) ∧
    ∃ i, matchAtPos (fun _ s => cnpjLabeledAt s)
          (normalizeText "CNPJ:123456780001999") i
        = some ['1', '2', '3', '4', '5', '6', '7', '8', '0', '0', '0', '1',
          '9', '9'] ∧
      ∀ j < i, matchAtPos (fun _ s => cnpjLabeledAt s)
          (normalizeText "CNPJ:123456780001999") j = none) :=
  ⟨(claimC4 "CNPJ: 11.222.333/0001-44" (by decide)).1
      ['1', '1', '.', '2', '2', '2', '.', '3', '3', '3', '/', '0', '0', '0',
        '1', '-', '4', '4'] (by decide),
   (claimC4 "CNPJ:123456780001999" (by decide)).2.1
      ['1', '2', '3', '4', '5', '6', '7', '8', '0', '0', '0', '1', '9', '9']
      (by decide) (by decide)⟩

/-- C8: for any source image with nonzero dimensions and any positive
width bound, the normalizer's output has dimensions
`round(width * scale)` by `round(height * scale)` with
`scale = min(1, maxWidth / width)`, and every pixel of the output is
all-channels 255 when its luminance `0.299 R + 0.587 G + 0.114 B`
(taken on the resized, contrast-adjusted buffer) exceeds `0.9` times the
buffer's mean luminance, else all-channels 0, with alpha 255.  (The JS
float arithmetic is modelled over `ℚ`.) -/
theorem claimC8 (resample : Nat → Nat → Img → List Px) (maxW : Nat) (img : Img)
    (hw : img.width ≠ 0) (hh : img.height ≠ 0) (hm : 0 < maxW) :
    (preprocessCore resample maxW img).width
      = jsRound ((img.width : ℚ) * min 1 ((maxW : ℚ) / (img.width : ℚ))) ∧
    (preprocessCore resample maxW img).height
      = jsRound ((img.height : ℚ) * min 1 ((maxW : ℚ) / (img.width : ℚ))) ∧
    (preprocessCore resample maxW img).data
      = (resample (scaledDims maxW img.width img.height).1
          (scaledDims maxW img.width img.height).2 img).map
        (fun p =>
          if lum p > meanLum (resample (scaledDims maxW img.width img.height).1
              (scaledDims maxW img.width img.height).2 img) * 0.9
          then ⟨255, 255, 255, 255⟩ else ⟨0, 0, 0, 255⟩) := by
  refine ⟨rfl, rfl, ?_⟩
  show binarize _ = _
  rw [binarize]
  rfl

/-- A one-pixel grey test image. -/
def img0 : Img := ⟨1, 1, [⟨100, 100, 100, 100⟩]⟩

/-- A resample stand-in returning the source buffer unchanged. -/
def idResample : Nat → Nat → Img → List Px := fun _ _ i => i.data

/-- A component state with pre-processing enabled and `img0` current. -/
def s0 : OCRState := ⟨true, some img0⟩

/-- C8 (witness). -/
theorem claimC8_witness :
    img0.width ≠ 0 ∧
    (preprocessCore idResample 1600 img0).width
      = jsRound ((img0.width : ℚ) * min 1 ((1600 : ℚ) / (img0.width : ℚ))) :=
  ⟨by decide, (claimC8 idResample 1600 img0 (by decide) (by decide) (by decide)).1⟩

/-- C9 (counterexample): the claim that the normalizer modifies no state
visible to the caller beyond allocating the output fails on the code:
`preprocessIfNeeded` stores the processed blob back into the component
state (`setCurrentBlob(b)`), so after a run on the grey one-pixel image
the `currentBlob` state differs from the source blob (binarization
yields an all-white or all-black pixel, never the original grey one). -/
theorem claimC9_counterexample :
    (preprocessIfNeeded idResample s0).2.currentBlob ≠ s0.currentBlob := by
  intro hEq
  have h1 : (preprocessIfNeeded idResample s0).2.currentBlob
      = some ⟨(scaledDims 1600 1 1).1, (scaledDims 1600 1 1).2,
          [binarizePx (meanLum img0.data) ⟨100, 100, 100, 100⟩]⟩ := rfl
  have h2 : s0.currentBlob = some img0 := rfl
  rw [h1, h2] at hEq
  have h3 := Option.some.inj hEq
  have h4 : [binarizePx (meanLum img0.data) ⟨100, 100, 100, 100⟩]
      = [(⟨100, 100, 100, 100⟩ : Px)] := congrArg Img.data h3
  have h5 := List.head_eq_of_cons_eq h4
  rw [binarizePx] at h5
  by_cases hcond : lum ⟨100, 100, 100, 100⟩ > meanLum img0.data * 0.9
  · rw [if_pos hcond] at h5
    simp [Px.mk.injEq] at h5
  · rw [if_neg hcond] at h5
    simp [Px.mk.injEq] at h5

/-- C9 (amended): the normalizer never mutates the source image's pixel
data (the source blob is immutable and the output is a freshly built
buffer), but it is not free of other caller-visible effects: when
pre-processing runs it replaces the component's `currentBlob` state with
the newly produced blob (and it reuses the shared canvas element). -/
theorem claimC9_amended (resample : Nat → Nat → Img → List Px)
    (s : OCRState) (img : Img)
    (h1 : s.preprocessImage = true) (h2 : s.currentBlob = some img) :
    preprocessIfNeeded resample s
      = (some (preprocessCore resample 1600 img),
         ⟨true, some (preprocessCore resample 1600 img)⟩) := by
  obtain ⟨pp, cb⟩ := s
  simp only at h1 h2
  subst h1
  subst h2
  rfl

/-- C9 (witness for the amended claim). -/
theorem claimC9_witness :
    preprocessIfNeeded idResample s0
      = (some (preprocessCore idResample 1600 img0),
         ⟨true, some (preprocessCore idResample 1600 img0)⟩) :=
  claimC9_amended idResample s0 img0 rfl rfl

end ScanParseCraft
